import Mathlib

/-!
Verification of the maze-driving-game core against its specification.

The development shallowly embeds the four algorithmic components of the
repository:

* the vehicle controller (updateCarPhysics in the physics module),
* the pressure-plate placer (getRandomPlatePlacements / createStations),
* the wall-layout builder (createMazeGeometry / createMazeColliders),
* the recursive-backtracker maze generator (generateMaze in maze.js).

JavaScript numbers are modelled as exact rationals.  Math.sqrt is passed as
an explicit function parameter where the source calls it; Math.random is
modelled as an explicit stream of rational draws indexed by the number of
calls made so far, which also makes the hidden-global nature of the source's
randomness expressible.  A JavaScript division whose divisor is zero yields
a non-finite value (NaN or Infinity); a vector contaminated that way is
modelled as `Option.none`.
-/

/- ## Vehicle controller (updateCarPhysics) -/

/-- A 3-vector of exact rationals, modelling a plain JS vector object. -/
structure Vec3 where
  x : ℚ
  y : ℚ
  z : ℚ
deriving DecidableEq

/-- A quaternion in Rapier's component order (x, y, z, w). -/
structure Quat where
  x : ℚ
  y : ℚ
  z : ℚ
  w : ℚ
deriving DecidableEq

/-- The four independent key flags read by the controller. -/
structure InputKeys where
  forward : Bool
  backward : Bool
  left : Bool
  right : Bool
deriving DecidableEq

/-- Tuned forward-force constant FORWARD_FORCE from updateCarPhysics. -/
def FORWARD_FORCE : ℚ := 80

/-- Tuned turning-torque constant TURN_TORQUE from updateCarPhysics. -/
def TURN_TORQUE : ℚ := 8

/-- The unnormalized forward vector computed by updateCarPhysics from the
car's rotation quaternion, transcribed term for term from the source:
(2(xz - wy), 2(yz + wx), 1 - 2(x^2 + y^2)). -/
def forwardVec (rotation : Quat) : Vec3 :=
  ⟨2 * (rotation.x * rotation.z - rotation.w * rotation.y),
   2 * (rotation.y * rotation.z + rotation.w * rotation.x),
   1 - 2 * (rotation.x * rotation.x + rotation.y * rotation.y)⟩

/-- The squared length forward.x^2 + forward.y^2 + forward.z^2 whose square
root the source takes as the normalization length. -/
def sumSq (v : Vec3) : ℚ := v.x * v.x + v.y * v.y + v.z * v.z

/-- One tick of updateCarPhysics: from the orientation quaternion and the key
flags, the linear impulse and the torque impulse that the source submits to
the physics engine.  mathSqrt stands for Math.sqrt.  The source divides the
forward components by the length unconditionally; when that length is zero
and a movement key is pressed, the applied impulse has non-finite (NaN)
components, modelled as `none`.  When no movement key is pressed the source
applies no linear impulse at all, i.e. a defined zero impulse.  The two
torque branches never divide and are always defined. -/
def updateCarPhysics (mathSqrt : ℚ → ℚ) (rotation : Quat) (inputKeys : InputKeys) :
    Option Vec3 × Vec3 :=
  let forward := forwardVec rotation
  let len := mathSqrt (sumSq forward)
  let torqueImpulse : Vec3 :=
    ⟨0,
     (if inputKeys.left then TURN_TORQUE else 0) +
       (if inputKeys.right then -TURN_TORQUE else 0),
     0⟩
  if inputKeys.forward || inputKeys.backward then
    if len = 0 then (none, torqueImpulse)
    else
      let fx := forward.x / len
      let fz := forward.z / len
      let impulse : Vec3 :=
        ⟨(if inputKeys.forward then fx * FORWARD_FORCE else 0) +
           (if inputKeys.backward then -(fx * FORWARD_FORCE) else 0),
         0,
         (if inputKeys.forward then fz * FORWARD_FORCE else 0) +
           (if inputKeys.backward then -(fz * FORWARD_FORCE) else 0)⟩
      (some impulse, torqueImpulse)
  else (some ⟨0, 0, 0⟩, torqueImpulse)

/-- Math.sqrt restricted to the two argument values arising in the concrete
scenarios below (1 and 0, both exact squares). -/
def mathSqrtStub : ℚ → ℚ := fun a => if a = 1 then 1 else 0

/-- Claim C2: at the identity orientation with only the forward key pressed,
the source applies the linear impulse (0, 0, +80) and zero torque.  The
claim (and the source's own comment) say the impulse should point along the
rotated local forward axis (0,0,-1), i.e. be (0, 0, -80): the formula in the
source is the third row of the rotation matrix (the inverse image of +Z),
not the image of -Z, so the code contradicts its own documentation. -/
theorem updateCarPhysics_identity_forward :
    updateCarPhysics mathSqrtStub ⟨0, 0, 0, 1⟩ ⟨true, false, false, false⟩ =
        (some ⟨0, 0, FORWARD_FORCE⟩, ⟨0, 0, 0⟩) ∧
      (⟨0, 0, FORWARD_FORCE⟩ : Vec3) ≠ ⟨0, 0, -1 * FORWARD_FORCE⟩ := by
  constructor
  · norm_num [updateCarPhysics, forwardVec, sumSq, mathSqrtStub, FORWARD_FORCE, TURN_TORQUE]
  · intro h
    rw [Vec3.mk.injEq] at h
    norm_num [FORWARD_FORCE] at h

/-- Claim C3, counterexample: at the denormalized orientation
(x,y,z,w) = (1/2, 1/2, 0, 0) the rotated forward vector is exactly zero, its
length is zero, and with the forward key pressed the source divides by that
zero length and applies a NaN-contaminated impulse (modelled none) — not the
defined zero impulse the claim promises. -/
theorem updateCarPhysics_degenerate_nan :
    updateCarPhysics mathSqrtStub ⟨1/2, 1/2, 0, 0⟩ ⟨true, false, false, false⟩ =
        (none, ⟨0, 0, 0⟩) ∧
      (none : Option Vec3) ≠ some ⟨0, 0, 0⟩ := by
  constructor
  · norm_num [updateCarPhysics, forwardVec, sumSq, mathSqrtStub, FORWARD_FORCE, TURN_TORQUE]
  · simp

/-- Claim C3, amended: the source has no zero-length guard.  The applied
linear impulse is undefined (NaN components, modelled none) exactly when the
computed normalization length is zero while a movement key is pressed; in
every other case the controller produces a defined impulse pair. -/
theorem updateCarPhysics_none_iff (mathSqrt : ℚ → ℚ) (rotation : Quat)
    (inputKeys : InputKeys) :
    (updateCarPhysics mathSqrt rotation inputKeys).1 = none ↔
      (mathSqrt (sumSq (forwardVec rotation)) = 0 ∧
        (inputKeys.forward = true ∨ inputKeys.backward = true)) := by
  unfold updateCarPhysics
  by_cases hmv : (inputKeys.forward || inputKeys.backward) = true
  · by_cases hlen : mathSqrt (sumSq (forwardVec rotation)) = 0
    · simp [hmv, hlen]
      simpa using Bool.or_eq_true_iff.mp hmv
    · simp [hmv, hlen]
  · have h12 : inputKeys.forward = false ∧ inputKeys.backward = false := by
      constructor
      · cases h : inputKeys.forward
        · rfl
        · exact absurd (by simp [h]) hmv
      · cases h : inputKeys.backward
        · rfl
        · exact absurd (by simp [h]) hmv
    simp [h12.1, h12.2]

/- ## Random draws

Math.random is modelled as a stream of rational draws indexed by how many
calls were made before; every consumption in the source has the shape
Math.floor(Math.random() * n), captured by jsPick. -/

/-- The source expression Math.floor(Math.random() * n) for the i-th call of
Math.random, as a natural number (the source only uses it to index arrays
and grids of size n). -/
def jsPick (rand : ℕ → ℚ) : ℕ → ℕ → ℕ :=
  fun i n => (Int.floor (rand i * n)).toNat

/-- Draws with value p/q evaluate to integer division: used to evaluate
concrete runs of the generators. -/
lemma jsPick_ratio (p q : ℕ) (len : ℕ) :
    (Int.floor ((p : ℚ) / q * len)).toNat = p * len / q := by
  have h1 : ((p : ℚ) / q * len) = ((p * len : ℕ) : ℚ) / ((q : ℕ) : ℚ) := by
    push_cast
    ring
  rw [h1, Int.floor_toNat, Nat.floor_div_nat, Nat.floor_natCast]

/-- A zero draw always picks index 0. -/
lemma jsPick_zero (len : ℕ) : (Int.floor ((0 : ℚ) * len)).toNat = 0 := by
  simp

/-- A draw in [0,1) picks an index below n (for nonempty n): this is the
in-bounds property the source silently relies on for Math.random. -/
lemma jsPick_lt (rand : ℕ → ℚ) (hr : ∀ n, 0 ≤ rand n ∧ rand n < 1)
    (i n : ℕ) (hn : n ≠ 0) : jsPick rand i n < n := by
  have h0 : (0 : ℚ) < (n : ℚ) := by
    exact_mod_cast Nat.pos_of_ne_zero hn
  have hlt : rand i * n < n := by
    calc rand i * n < 1 * n := by
          exact mul_lt_mul_of_pos_right (hr i).2 h0
      _ = n := one_mul _
  have hfl : Int.floor (rand i * n) < (n : ℤ) := by
    rw [Int.floor_lt]
    exact_mod_cast hlt
  simp only [jsPick]
  omega

/- ## Station placer (getRandomPlatePlacements / createStations) -/

/-- A grid cell drawn by the placer. -/
structure Placement where
  x : ℕ
  z : ℕ
deriving DecidableEq

/-- The JS access mazeData[x][z]: none models the undefined value produced
by an out-of-range index. -/
def cellAt (mazeData : List (List ℕ)) (x z : ℕ) : Option ℕ :=
  (mazeData[x]?).bind fun row => row[z]?

/-- Squared Euclidean distance between two grid cells.  The source compares
Math.sqrt of this quantity against 3 (spawn clearance) and 2 (inter-plate
spacing); since both sides are nonnegative this is equivalent to comparing
the square against 9 and 4, which avoids the irrational square root. -/
def distSq (x z x2 z2 : ℕ) : ℤ :=
  ((x : ℤ) - x2) ^ 2 + ((z : ℤ) - z2) ^ 2

/-- The rejection-sampling while loop of getRandomPlatePlacements.  fuel is
maxAttempts - attempts (the source bounds attempts by maxAttempts = 2000);
calls counts Math.random invocations so far; pick i n stands for
Math.floor(Math.random() * n) at call i (see jsPick).  Each iteration draws
a cell, rejects walls and out-of-range accesses (undefined !== 0 is true in
JS), rejects cells nearer than 3 to the spawn cell or nearer than 2 to an
accepted placement, and otherwise appends the cell. -/
def platesLoop (mazeData : List (List ℕ)) (pick : ℕ → ℕ → ℕ) (numPlates : ℕ) :
    ℕ → ℕ → List Placement → List Placement
  | 0, _, placements => placements
  | fuel + 1, calls, placements =>
    if placements.length < numPlates then
      let x := pick calls mazeData.length
      let z := pick (calls + 1) (mazeData.headD []).length
      if cellAt mazeData x z ≠ some 0 then
        platesLoop mazeData pick numPlates fuel (calls + 2) placements
      else if ((x : ℤ) ^ 2 + (z : ℤ) ^ 2) < 9 then
        platesLoop mazeData pick numPlates fuel (calls + 2) placements
      else if placements.any fun e => decide (distSq x z e.x e.z < 4) then
        platesLoop mazeData pick numPlates fuel (calls + 2) placements
      else
        platesLoop mazeData pick numPlates fuel (calls + 2) (placements ++ [⟨x, z⟩])
    else placements

/-- getRandomPlatePlacements(mazeData, numPlates): run the rejection loop
with attempt budget 2000 on the Math.random stream. -/
def getRandomPlatePlacements (mazeData : List (List ℕ)) (numPlates : ℕ)
    (rand : ℕ → ℚ) : List Placement :=
  platesLoop mazeData (jsPick rand) numPlates 2000 0 []

/-- Symmetry of the squared distance. -/
lemma distSq_comm (x z x2 z2 : ℕ) : distSq x z x2 z2 = distSq x2 z2 x z := by
  unfold distSq
  ring

/-- Loop invariant of the placer: accepted placements are path cells, at
squared distance at least 9 from spawn, pairwise at squared distance at
least 4, and never more numerous than requested. -/
lemma platesLoop_invariant (mazeData : List (List ℕ)) (pick : ℕ → ℕ → ℕ)
    (numPlates : ℕ) :
    ∀ fuel calls placements,
      (∀ p ∈ placements, cellAt mazeData p.x p.z = some 0 ∧
          9 ≤ (p.x : ℤ) ^ 2 + (p.z : ℤ) ^ 2) →
      List.Pairwise (fun a b => 4 ≤ distSq a.x a.z b.x b.z) placements →
      placements.length ≤ numPlates →
      ((∀ p ∈ platesLoop mazeData pick numPlates fuel calls placements,
          cellAt mazeData p.x p.z = some 0 ∧
            9 ≤ (p.x : ℤ) ^ 2 + (p.z : ℤ) ^ 2) ∧
        List.Pairwise (fun a b => 4 ≤ distSq a.x a.z b.x b.z)
          (platesLoop mazeData pick numPlates fuel calls placements) ∧
        (platesLoop mazeData pick numPlates fuel calls placements).length ≤
          numPlates) := by
  intro fuel
  induction fuel with
  | zero =>
    intro calls placements h1 h2 h3
    exact ⟨h1, h2, h3⟩
  | succ fuel ih =>
    intro calls placements h1 h2 h3
    rw [platesLoop]
    dsimp only
    split_ifs with hlen hcell hspawn hclose
    · exact ih _ _ h1 h2 h3
    · exact ih _ _ h1 h2 h3
    · exact ih _ _ h1 h2 h3
    · apply ih
      · intro p hp
        rcases List.mem_append.mp hp with hp | hp
        · exact h1 p hp
        · have hp' : p = (⟨_, _⟩ : Placement) := List.mem_singleton.mp hp
          subst hp'
          refine ⟨not_not.mp hcell, le_of_not_lt hspawn⟩
      · rw [List.pairwise_append]
        refine ⟨h2, List.pairwise_singleton _ _, ?_⟩
        intro a ha b hb
        have hb' : b = (⟨_, _⟩ : Placement) := List.mem_singleton.mp hb
        subst hb'
        have hnot : ∀ e ∈ placements,
            ¬(distSq (pick calls mazeData.length)
                (pick (calls + 1) (mazeData.headD []).length) e.x e.z < 4) := by
          intro e he hd
          apply hclose
          rw [List.any_eq_true]
          exact ⟨e, he, by simpa using hd⟩
        have h4 := hnot a ha
        dsimp only
        rw [distSq_comm]
        omega
      · rw [List.length_append]
        simpa using hlen
    · exact ⟨h1, h2, h3⟩

/-- The result of the placer never exceeds the requested count (shared
consequence of the loop invariant). -/
lemma getRandomPlatePlacements_le (mazeData : List (List ℕ)) (numPlates : ℕ)
    (rand : ℕ → ℚ) :
    (getRandomPlatePlacements mazeData numPlates rand).length ≤ numPlates :=
  (platesLoop_invariant mazeData (jsPick rand) numPlates 2000 0 []
    (by simp) (by simp) (by simp)).2.2

/-- Claim C4: every placement returned by the station placer is on a Path
cell of the grid, at Euclidean distance at least 3 from the spawn cell
(stated as squared distance at least 9), pairwise at Euclidean distance at
least 2 from every other placement (squared distance at least 4), and the
returned list never exceeds the requested count. -/
theorem getRandomPlatePlacements_valid (mazeData : List (List ℕ))
    (numPlates : ℕ) (rand : ℕ → ℚ) :
    (∀ p ∈ getRandomPlatePlacements mazeData numPlates rand,
        cellAt mazeData p.x p.z = some 0 ∧
          9 ≤ (p.x : ℤ) ^ 2 + (p.z : ℤ) ^ 2) ∧
      List.Pairwise (fun a b => 4 ≤ distSq a.x a.z b.x b.z)
        (getRandomPlatePlacements mazeData numPlates rand) ∧
      (getRandomPlatePlacements mazeData numPlates rand).length ≤ numPlates := by
  exact platesLoop_invariant mazeData (jsPick rand) numPlates 2000 0 []
    (by simp) (by simp) (by simp)

/-- Claim C8: the placer's loop is bounded: it returns as soon as the
requested count is reached (regardless of remaining budget), it returns
when the attempt budget is exhausted, and the result never exceeds the
request — under-fulfilment shows up only as a short list, the function
being total by construction. -/
theorem platesLoop_terminates (mazeData : List (List ℕ)) (pick : ℕ → ℕ → ℕ)
    (numPlates calls : ℕ) (placements : List Placement) :
    (numPlates ≤ placements.length →
      ∀ fuel, platesLoop mazeData pick numPlates fuel calls placements =
        placements) ∧
      platesLoop mazeData pick numPlates 0 calls placements = placements ∧
      ∀ rand : ℕ → ℚ,
        (getRandomPlatePlacements mazeData numPlates rand).length ≤ numPlates := by
  refine ⟨?_, rfl, ?_⟩
  · intro h fuel
    cases fuel with
    | zero => rfl
    | succ fuel =>
      rw [platesLoop, if_neg (not_lt.mpr h)]
  · intro rand
    exact getRandomPlatePlacements_le mazeData numPlates rand

/- ## Stations (createPlateMesh / createStations) -/

/-- The world-space position computed by createPlateMesh for grid cell
(x, z): the source hardcodes mazeWidth = mazeHeight = 50 locally and places
the plate at (x - 50/2, 0.1, z - 50/2), regardless of the grid actually in
use. -/
def createPlateMesh (x z : ℕ) : ℚ × ℚ × ℚ :=
  let mazeWidth : ℚ := 50
  let mazeHeight : ℚ := 50
  ((x : ℚ) - mazeWidth / 2, 1 / 10, (z : ℚ) - mazeHeight / 2)

/-- A station record: grid coordinates plus the cloned world position of its
plate mesh. -/
structure Station where
  x : ℕ
  z : ℕ
  posX : ℚ
  posY : ℚ
  posZ : ℚ
deriving DecidableEq

/-- The station object built for one accepted placement. -/
def stationOf (p : Placement) : Station :=
  ⟨p.x, p.z, (createPlateMesh p.x p.z).1, (createPlateMesh p.x p.z).2.1,
    (createPlateMesh p.x p.z).2.2⟩

/-- createStations: requests numPlates = 12 placements and records one
station per accepted placement. -/
def createStations (mazeData : List (List ℕ)) (rand : ℕ → ℚ) : List Station :=
  (getRandomPlatePlacements mazeData 12 rand).map stationOf

/-- Claim C10: every created station's world position is exactly
(x - 25, 0.1, z - 25) for its grid cell (x, z) whatever the grid's actual
size, and that position agrees with a width/2-and-height/2 centering (the
one wall placement uses) precisely when the dimensions are 50 by 50. -/
theorem createStations_hardcoded_offset (mazeData : List (List ℕ))
    (rand : ℕ → ℚ) :
    (∀ s ∈ createStations mazeData rand,
        s.posX = (s.x : ℚ) - 25 ∧ s.posY = 1 / 10 ∧ s.posZ = (s.z : ℚ) - 25) ∧
      ∀ w h x z : ℕ,
        createPlateMesh x z =
            ((x : ℚ) - w / 2, (1 : ℚ) / 10, (z : ℚ) - h / 2) ↔
          (w = 50 ∧ h = 50) := by
  constructor
  · intro s hs
    rw [createStations, List.mem_map] at hs
    obtain ⟨p, -, rfl⟩ := hs
    refine ⟨?_, rfl, ?_⟩ <;> · simp [stationOf, createPlateMesh]; norm_num
  · intro w h x z
    constructor
    · intro heq
      rw [createPlateMesh] at heq
      have hx := congrArg Prod.fst heq
      have hz := congrArg (fun t => t.2.2) heq
      simp only at hx hz
      constructor
      · have : (w : ℚ) = 50 := by linarith
        exact_mod_cast this
      · have : (h : ℚ) = 50 := by linarith
        exact_mod_cast this
    · rintro ⟨rfl, rfl⟩
      rw [createPlateMesh]
      norm_num

/-- A 30 by 1 all-path grid used to exercise the placer concretely. -/
def plateTestGrid : List (List ℕ) := List.replicate 30 [0]

/-- A concrete Math.random stream for the placer: the first attempt draws
cell (4, 0), the second draws cell (6, 0), all later draws are 0. -/
def plateTestRand : ℕ → ℚ := fun n => if n = 0 then 4 / 30 else if n = 2 then 6 / 30 else 0

/-- Evaluation of the draw stream plateTestRand into plain naturals. -/
lemma jsPick_plateTestRand :
    jsPick plateTestRand =
      fun i len => if i = 0 then 4 * len / 30 else if i = 2 then 6 * len / 30 else 0 := by
  funext i len
  by_cases h0 : i = 0
  · subst h0
    simpa [jsPick, plateTestRand] using jsPick_ratio 4 30 len
  · by_cases h2 : i = 2
    · subst h2
      simpa [jsPick, plateTestRand] using jsPick_ratio 6 30 len
    · simp [jsPick, plateTestRand, h0, h2]

/-- Witness for claim C4: on the concrete grid and stream above, the cell
(4, 0) is accepted, and the theorem instantiates to it. -/
theorem getRandomPlatePlacements_valid_witness :
    (cellAt plateTestGrid 4 0 = some 0 ∧
        (9 : ℤ) ≤ ((4 : ℕ) : ℤ) ^ 2 + ((0 : ℕ) : ℤ) ^ 2) ∧
      (getRandomPlatePlacements plateTestGrid 2 plateTestRand).length ≤ 2 := by
  have hmem : (⟨4, 0⟩ : Placement) ∈ getRandomPlatePlacements plateTestGrid 2 plateTestRand := by
    rw [getRandomPlatePlacements, jsPick_plateTestRand]
    decide
  exact ⟨(getRandomPlatePlacements_valid plateTestGrid 2 plateTestRand).1 ⟨4, 0⟩ hmem,
    (getRandomPlatePlacements_valid plateTestGrid 2 plateTestRand).2.2⟩

/-- Witness for claim C8: with a full accepted list the loop stops at once,
with no fuel it stops, and the wrapper result is bounded by the request. -/
theorem platesLoop_terminates_witness :
    platesLoop [[1]] (fun _ _ => 0) 1 5 9 [⟨5, 5⟩] = [⟨5, 5⟩] ∧
      platesLoop [[1]] (fun _ _ => 0) 1 0 9 [⟨5, 5⟩] = [⟨5, 5⟩] ∧
      (getRandomPlatePlacements [[1]] 1 (fun _ => 0)).length ≤ 1 := by
  refine ⟨(platesLoop_terminates [[1]] (fun _ _ => 0) 1 9 [⟨5, 5⟩]).1 (by decide) 5,
    (platesLoop_terminates [[1]] (fun _ _ => 0) 1 9 [⟨5, 5⟩]).2.1,
    (platesLoop_terminates [[1]] (fun _ _ => 0) 1 9 [⟨5, 5⟩]).2.2 (fun _ => 0)⟩

/-- A 26 by 1 all-path grid used to exercise createStations concretely. -/
def stationTestGrid : List (List ℕ) := List.replicate 26 [0]

/-- A concrete Math.random stream whose even-indexed draws produce the
x-cells 3, 5, 7, ..., 25 and whose odd-indexed draws are 0: twelve plates
are accepted immediately. -/
def stationTestRand : ℕ → ℚ := fun n => if n % 2 = 0 then ((3 + n : ℕ) : ℚ) / 26 else 0

/-- Evaluation of the draw stream stationTestRand into plain naturals. -/
lemma jsPick_stationTestRand :
    jsPick stationTestRand =
      fun i len => if i % 2 = 0 then (3 + i) * len / 26 else 0 := by
  funext i len
  by_cases h : i % 2 = 0
  · simp only [jsPick, stationTestRand, if_pos h]
    simpa using jsPick_ratio (3 + i) 26 len
  · simp [jsPick, stationTestRand, h]

/-- Witness for claim C10: the concrete station at cell (3, 0) exists and
its recorded position satisfies the hardcoded offset equations. -/
theorem createStations_hardcoded_offset_witness :
    (stationOf ⟨3, 0⟩).posX = ((stationOf ⟨3, 0⟩).x : ℚ) - 25 ∧
      (stationOf ⟨3, 0⟩).posY = 1 / 10 ∧
      (stationOf ⟨3, 0⟩).posZ = ((stationOf ⟨3, 0⟩).z : ℚ) - 25 := by
  have hmem : (⟨3, 0⟩ : Placement) ∈
      getRandomPlatePlacements stationTestGrid 12 stationTestRand := by
    rw [getRandomPlatePlacements, jsPick_stationTestRand]
    decide
  have hs : stationOf ⟨3, 0⟩ ∈ createStations stationTestGrid stationTestRand := by
    rw [createStations]
    exact List.mem_map_of_mem _ hmem
  exact (createStations_hardcoded_offset stationTestGrid stationTestRand).1 _ hs

/- ## Wall layout builder (createMazeGeometry / createMazeColliders) -/

/-- One wall instance of the instanced mesh: its world-space position
(x - width/2, 2, z - height/2), y = 2 centering the 4-unit wall. -/
structure WallInstance where
  posX : ℚ
  posY : ℚ
  posZ : ℚ
deriving DecidableEq

/-- One static collider descriptor: translation as the wall instance, cuboid
half-extents (0.5, 2, 0.5) and friction 0.8, as in createMazeColliders. -/
structure WallCollider where
  posX : ℚ
  posY : ℚ
  posZ : ℚ
  hx : ℚ
  hy : ℚ
  hz : ℚ
  friction : ℚ
deriving DecidableEq

/-- The cell traversal shared by createMazeGeometry and createMazeColliders:
x from 0 to width-1 (width = maze.length), inner z from 0 to height-1
(height = maze[0].length), keeping the cells whose value is 1 (Wall). -/
def wallCellsOf (maze : List (List ℕ)) : List (ℕ × ℕ) :=
  ((List.range maze.length).flatMap fun x =>
      (List.range (maze.headD []).length).map fun z => (x, z)).filter
    fun p => decide (cellAt maze p.1 p.2 = some 1)

/-- The wall count computed by the counting loop of createMazeGeometry. -/
def countWalls (maze : List (List ℕ)) : ℕ := (wallCellsOf maze).length

/-- createMazeGeometry: one positioned instance per Wall cell (the rendering
material and geometry objects carry no grid information and are omitted). -/
def createMazeGeometry (maze : List (List ℕ)) : List WallInstance :=
  (wallCellsOf maze).map fun p =>
    ⟨(p.1 : ℚ) - maze.length / 2, 2, (p.2 : ℚ) - (maze.headD []).length / 2⟩

/-- createMazeColliders: one fixed rigid body and cuboid collider per Wall
cell, at the same centered position as the rendered instance. -/
def createMazeColliders (maze : List (List ℕ)) : List WallCollider :=
  (wallCellsOf maze).map fun p =>
    ⟨(p.1 : ℚ) - maze.length / 2, 2, (p.2 : ℚ) - (maze.headD []).length / 2,
      1 / 2, 2, 1 / 2, 4 / 5⟩

/-- Claim C5: the layout builder emits exactly one instance and one collider
per Wall cell — both lists have length equal to the wall count — and
neither an instance nor a collider is emitted at the position of a Path
cell. -/
theorem createMaze_one_wall_per_cell (maze : List (List ℕ)) :
    (createMazeGeometry maze).length = (createMazeColliders maze).length ∧
      (createMazeColliders maze).length = countWalls maze ∧
      (∀ x z : ℕ, cellAt maze x z = some 0 →
        (⟨(x : ℚ) - maze.length / 2, 2, (z : ℚ) - (maze.headD []).length / 2⟩ :
            WallInstance) ∉ createMazeGeometry maze) ∧
      ∀ x z : ℕ, cellAt maze x z = some 0 →
        (⟨(x : ℚ) - maze.length / 2, 2, (z : ℚ) - (maze.headD []).length / 2,
            1 / 2, 2, 1 / 2, 4 / 5⟩ :
            WallCollider) ∉ createMazeColliders maze := by
  refine ⟨by simp [createMazeGeometry, createMazeColliders], by
    simp [createMazeColliders, countWalls], ?_, ?_⟩
  · intro x z hpath hmem
    rw [createMazeGeometry, List.mem_map] at hmem
    obtain ⟨p, hp, heq⟩ := hmem
    rw [WallInstance.mk.injEq] at heq
    have hx : p.1 = x := by
      have := heq.1
      have hq : (p.1 : ℚ) = (x : ℚ) := by linarith
      exact_mod_cast hq
    have hz : p.2 = z := by
      have := heq.2.2
      have hq : (p.2 : ℚ) = (z : ℚ) := by linarith
      exact_mod_cast hq
    have hwall : cellAt maze p.1 p.2 = some 1 := by
      have := List.of_mem_filter hp
      simpa using this
    rw [hx, hz, hpath] at hwall
    exact absurd hwall (by simp)
  · intro x z hpath hmem
    rw [createMazeColliders, List.mem_map] at hmem
    obtain ⟨p, hp, heq⟩ := hmem
    rw [WallCollider.mk.injEq] at heq
    have hx : p.1 = x := by
      have := heq.1
      have hq : (p.1 : ℚ) = (x : ℚ) := by linarith
      exact_mod_cast hq
    have hz : p.2 = z := by
      have := heq.2.2.1
      have hq : (p.2 : ℚ) = (z : ℚ) := by linarith
      exact_mod_cast hq
    have hwall : cellAt maze p.1 p.2 = some 1 := by
      have := List.of_mem_filter hp
      simpa using this
    rw [hx, hz, hpath] at hwall
    exact absurd hwall (by simp)

/-- Witness for claim C5: a concrete 1 by 2 grid with one wall and one path
cell; the path cell's position carries no instance and no collider. -/
theorem createMaze_one_wall_per_cell_witness :
    (createMazeGeometry [[1, 0]]).length = (createMazeColliders [[1, 0]]).length ∧
      (⟨((0 : ℕ) : ℚ) - ([[1, 0]] : List (List ℕ)).length / 2, 2,
          ((1 : ℕ) : ℚ) - (([[1, 0]] : List (List ℕ)).headD []).length / 2⟩ :
          WallInstance) ∉ createMazeGeometry [[1, 0]] ∧
      (⟨((0 : ℕ) : ℚ) - ([[1, 0]] : List (List ℕ)).length / 2, 2,
          ((1 : ℕ) : ℚ) - (([[1, 0]] : List (List ℕ)).headD []).length / 2,
          1 / 2, 2, 1 / 2, 4 / 5⟩ :
          WallCollider) ∉ createMazeColliders [[1, 0]] :=
  ⟨(createMaze_one_wall_per_cell [[1, 0]]).1,
    (createMaze_one_wall_per_cell [[1, 0]]).2.2.1 0 1 (by decide),
    (createMaze_one_wall_per_cell [[1, 0]]).2.2.2 0 1 (by decide)⟩

/- ## Maze generator (generateMaze) -/

/-- Pointwise update of a two-argument function: models the single array
store mazeArray[a][b] = v (and likewise for the visited array). -/
def set2 {A : Type} (f : ℤ → ℤ → A) (a b : ℤ) (v : A) : ℤ → ℤ → A :=
  fun x z => if x = a ∧ z = b then v else f x z

/-- One entry of the directions table of getUnvisitedNeighbors: the stride-2
offset (dx, dz) and the offset (wx, wz) of the wall cell in between. -/
structure MazeDir where
  dx : ℤ
  dz : ℤ
  wx : ℤ
  wz : ℤ

/-- The directions table: North, East, South, West in source order. -/
def mazeDirections : List MazeDir :=
  [⟨0, -2, 0, -1⟩, ⟨2, 0, 1, 0⟩, ⟨0, 2, 0, 1⟩, ⟨-2, 0, -1, 0⟩]

/-- One entry pushed by getUnvisitedNeighbors: the neighbor cell and the
wall cell between it and the current cell. -/
structure MazeNeighbor where
  x : ℤ
  z : ℤ
  wallX : ℤ
  wallZ : ℤ
deriving DecidableEq

/-- getUnvisitedNeighbors(x, z, visited): the in-bounds unvisited stride-2
neighbors of (x, z), each paired with its connecting wall cell. -/
def getUnvisitedNeighbors (width height : ℕ) (x z : ℤ) (visited : ℤ → ℤ → Bool) :
    List MazeNeighbor :=
  mazeDirections.filterMap fun d =>
    let nx := x + d.dx
    let nz := z + d.dz
    if 0 ≤ nx ∧ nx < (width : ℤ) ∧ 0 ≤ nz ∧ nz < (height : ℤ) ∧
        visited nx nz = false then
      some ⟨nx, nz, x + d.wx, z + d.wz⟩
    else none

/-- The mutable state of generateMaze: the maze array (1 = wall, 0 = path),
the visited array, the explicit DFS stack, and the number of Math.random
calls made so far. -/
structure GenState where
  maze : ℤ → ℤ → ℕ
  visited : ℤ → ℤ → Bool
  stack : List (ℤ × ℤ)
  ridx : ℕ

/-- The state just before the while loop: all walls except the spawn cell
(0,0), which is path, visited and on the stack. -/
def genInit (ridx : ℕ) : GenState :=
  { maze := set2 (fun _ _ => 1) 0 0 0,
    visited := set2 (fun _ _ => false) 0 0 true,
    stack := [(0, 0)],
    ridx := ridx }

/-- One iteration of the while loop of generateMaze: look at the top of the
stack; if it has unvisited stride-2 neighbors, pick one by the next random
draw (pick i n models Math.floor(Math.random() * n), see jsPick), carve the
wall cell between and the neighbor cell, mark the neighbor visited and push
it; otherwise pop. -/
def genStep (width height : ℕ) (pick : ℕ → ℕ → ℕ) (s : GenState) : GenState :=
  match s.stack with
  | [] => s
  | current :: rest =>
    let neighbors := getUnvisitedNeighbors width height current.1 current.2 s.visited
    if 0 < neighbors.length then
      let next := neighbors.getD (pick s.ridx neighbors.length) ⟨0, 0, 0, 0⟩
      { maze := set2 (set2 s.maze next.wallX next.wallZ 0) next.x next.z 0,
        visited := set2 s.visited next.x next.z true,
        stack := (next.x, next.z) :: s.stack,
        ridx := s.ridx + 1 }
    else
      { s with stack := rest }

/-- The while loop, with fuel: the loop runs until the stack empties, and
2*width*height + 1 iterations dominate the strictly decreasing measure
2*(number of unvisited cells) + (stack length), so the fuel given in
generateMazeP below never runs out on in-range random draws. -/
def genLoop (width height : ℕ) (pick : ℕ → ℕ → ℕ) : ℕ → GenState → GenState
  | 0, s => s
  | fuel + 1, s =>
    match s.stack with
    | [] => s
    | _ :: _ => genLoop width height pick fuel (genStep width height pick s)

/-- The full run of generateMaze over an abstract draw function. -/
def generateMazeP (width height : ℕ) (pick : ℕ → ℕ → ℕ) (ridx : ℕ) : GenState :=
  genLoop width height pick (2 * width * height + 1) (genInit ridx)

/-- generateMaze on the Math.random stream, starting at stream position
ridx; returns the maze together with the advanced stream position (the
source advances the hidden global Math.random state). -/
def generateMazeRun (width height : ℕ) (rand : ℕ → ℚ) (ridx : ℕ) :
    (ℤ → ℤ → ℕ) × ℕ :=
  ((generateMazeP width height (jsPick rand) ridx).maze,
    (generateMazeP width height (jsPick rand) ridx).ridx)

/-- generateMaze(width, height) at the start of the Math.random stream. -/
def generateMaze (width height : ℕ) (rand : ℕ → ℚ) : ℤ → ℤ → ℕ :=
  (generateMazeRun width height rand 0).1

/- ## Derived views of a generated grid -/

/-- The grid rectangle [0, width) x [0, height) as a finite set. -/
def gridCells (width height : ℕ) : Finset (ℤ × ℤ) :=
  Finset.Icc 0 ((width : ℤ) - 1) ×ˢ Finset.Icc 0 ((height : ℤ) - 1)

/-- The Path cells (value 0) of the grid rectangle. -/
def pathCells (M : ℤ → ℤ → ℕ) (width height : ℕ) : Finset (ℤ × ℤ) :=
  (gridCells width height).filter fun p => M p.1 p.2 = 0

/-- The Path cells with both coordinates even: the rooms of the stride-2
carving lattice. -/
def roomCells (M : ℤ → ℤ → ℕ) (width height : ℕ) : Finset (ℤ × ℤ) :=
  (pathCells M width height).filter fun p => 2 ∣ p.1 ∧ 2 ∣ p.2

/-- The Path cells with an odd coordinate: exactly the wall cells the
generator cleared between two rooms, i.e. the carved connections. -/
def connCells (M : ℤ → ℤ → ℕ) (width height : ℕ) : Finset (ℤ × ℤ) :=
  (pathCells M width height).filter fun p => ¬(2 ∣ p.1 ∧ 2 ∣ p.2)

/-- The visited cells of the grid rectangle. -/
def visitedCells (V : ℤ → ℤ → Bool) (width height : ℕ) : Finset (ℤ × ℤ) :=
  (gridCells width height).filter fun p => V p.1 p.2 = true

/-- Two cells are joined by a carved connection: both are path, they are at
stride 2 on one axis, and the wall cell between them is path. -/
def carvedAdj (M : ℤ → ℤ → ℕ) (a b : ℤ × ℤ) : Prop :=
  M a.1 a.2 = 0 ∧ M b.1 b.2 = 0 ∧
    ((b.1 = a.1 ∧ b.2 = a.2 + 2 ∧ M a.1 (a.2 + 1) = 0) ∨
      (b.1 = a.1 ∧ b.2 = a.2 - 2 ∧ M a.1 (a.2 - 1) = 0) ∨
      (b.2 = a.2 ∧ b.1 = a.1 + 2 ∧ M (a.1 + 1) a.2 = 0) ∨
      (b.2 = a.2 ∧ b.1 = a.1 - 2 ∧ M (a.1 - 1) a.2 = 0))

/-- Reachability from the spawn cell along carved connections. -/
def mazeReach (M : ℤ → ℤ → ℕ) (c : ℤ × ℤ) : Prop :=
  Relation.ReflTransGen (carvedAdj M) (0, 0) c

/- ## Concrete generator runs -/

/-- The all-zero Math.random stream. -/
def czeroRand : ℕ → ℚ := fun _ => 0

/-- Evaluation of the all-zero stream into plain naturals. -/
lemma jsPick_czeroRand : jsPick czeroRand = fun _ _ => 0 := by
  funext i len
  simp [jsPick, czeroRand]

/-- A stream whose first three draws are 0 and whose later draws are 9/10:
the draws a first 3 by 3 generation consumes, then different ones. -/
def seqRand : ℕ → ℚ := fun n => if n < 3 then 0 else 9 / 10

/-- Evaluation of seqRand into plain naturals. -/
lemma jsPick_seqRand :
    jsPick seqRand = fun i len => if i < 3 then 0 else 9 * len / 10 := by
  funext i len
  by_cases h : i < 3
  · simp [jsPick, seqRand, h]
  · simp only [jsPick, seqRand, if_neg h]
    simpa using jsPick_ratio 9 10 len

/-- Claim C1, counterexample: for the 3 by 3 generation on the all-zero
stream, the grid has 7 Path cells in total (4 rooms and 3 carved wall
cells) but only 3 carved connections, so the claimed equation
"carved connections = Path cells - 1" fails: taking the Path cells of the
grid literally, 3 is not 7 - 1.  (The equation holds only for the Path
cells with both coordinates even, see the amended theorem.) -/
theorem generateMaze_literal_tree_count_fails :
    (connCells (generateMaze 3 3 czeroRand) 3 3).card = 3 ∧
      (pathCells (generateMaze 3 3 czeroRand) 3 3).card = 7 ∧
      ¬ ((connCells (generateMaze 3 3 czeroRand) 3 3).card =
          (pathCells (generateMaze 3 3 czeroRand) 3 3).card - 1) := by
  simp only [generateMaze, generateMazeRun, jsPick_czeroRand]
  refine ⟨by decide, by decide, by decide⟩

/-- Claim C7, counterexample: generateMaze(width, height) reads the hidden
global Math.random stream.  Modelling that stream explicitly with its
cursor, two back-to-back calls with the same width and height (the second
starting at the cursor the first left behind) can return different grids:
on the stream seqRand the first 3 by 3 call leaves cell (0, 1) a wall while
the second call carves it. -/
theorem generateMaze_sequential_calls_differ :
    (generateMazeRun 3 3 seqRand (generateMazeRun 3 3 seqRand 0).2).1 0 1 ≠
      (generateMazeRun 3 3 seqRand 0).1 0 1 := by
  simp only [generateMazeRun, jsPick_seqRand]
  decide

/-- Claim C7, amended: generation is deterministic in the modelled stream:
the resulting grid and final cursor depend only on the values of the draws,
not on the representation of the stream function. -/
theorem generateMazeRun_deterministic (width height : ℕ) (r1 r2 : ℕ → ℚ)
    (ridx : ℕ) (h : ∀ n, r1 n = r2 n) :
    generateMazeRun width height r1 ridx = generateMazeRun width height r2 ridx := by
  have hr : r1 = r2 := funext h
  rw [hr]

/-- Witness for the amended claim C7: two syntactically different but
pointwise equal streams generate the same grid. -/
theorem generateMazeRun_deterministic_witness :
    generateMazeRun 2 2 (fun _ => (1 : ℚ) / 2) 0 =
      generateMazeRun 2 2 (fun n => 1 / 2 + 0 * (n : ℚ)) 0 :=
  generateMazeRun_deterministic 2 2 _ _ 0 (fun n => by norm_num)

/- ## Module-level maze state (mazeData / getMazeData) -/

/-- The module-level variable "let mazeData = null" of maze.js: none models
null, some g models a stored grid. -/
structure MazeModuleState where
  mazeData : Option (ℤ → ℤ → ℕ)

/-- getMazeData(): returns the module-level mazeData. -/
def getMazeData (st : MazeModuleState) : Option (ℤ → ℤ → ℕ) := st.mazeData

/-- generateMaze including its effect on the module state: the source ends
with "mazeData = maze; return maze", so the call returns the grid (and the
advanced Math.random cursor) and overwrites mazeData with that same grid. -/
def generateMazeStateful (width height : ℕ) (rand : ℕ → ℚ) (ridx : ℕ)
    (_st : MazeModuleState) : ((ℤ → ℤ → ℕ) × ℕ) × MazeModuleState :=
  (generateMazeRun width height rand ridx,
    ⟨some (generateMazeRun width height rand ridx).1⟩)

/-- Claim C9, counterexample: module-level state written by one call is
observable by a later call: after one generateMaze call, getMazeData no
longer returns null, so the claim that no module-level write of one call is
observable later is false. -/
theorem generateMaze_module_state_observable :
    getMazeData (generateMazeStateful 3 3 czeroRand 0 ⟨none⟩).2 ≠
      getMazeData ⟨none⟩ := by
  simp [generateMazeStateful, getMazeData]

/-- Claim C9, amended: the maze value returned is freshly computed from the
inputs alone — the prior module state never influences it — and the state
left behind is exactly the returned grid stored in mazeData (which
getMazeData then reports). -/
theorem generateMaze_module_state_exact (width height : ℕ) (rand : ℕ → ℚ)
    (ridx : ℕ) (st : MazeModuleState) :
    getMazeData (generateMazeStateful width height rand ridx st).2 =
        some (generateMazeStateful width height rand ridx st).1.1 ∧
      (generateMazeStateful width height rand ridx st).1 =
        (generateMazeStateful width height rand ridx ⟨none⟩).1 :=
  ⟨rfl, rfl⟩

/- ## Generator invariants -/

/-- Updating one cell and reading another. -/
lemma set2_true_iff (V : ℤ → ℤ → Bool) (a b x z : ℤ) :
    set2 V a b true x z = true ↔ ((x = a ∧ z = b) ∨ V x z = true) := by
  unfold set2
  split_ifs with h
  · simp [h]
  · simp [h]

/-- Updating one cell to 0 and reading another. -/
lemma set2_zero_iff (M : ℤ → ℤ → ℕ) (a b x z : ℤ) :
    set2 M a b 0 x z = 0 ↔ ((x = a ∧ z = b) ∨ M x z = 0) := by
  unfold set2
  split_ifs with h
  · simp [h]
  · simp [h]

/-- An in-range index of getD is a member of the list. -/
lemma getD_mem_of_lt {A : Type} (l : List A) (k : ℕ) (d : A) (h : k < l.length) :
    l.getD k d ∈ l := by
  induction l generalizing k with
  | nil => simp at h
  | cons a t ih =>
    cases k with
    | zero => simp
    | succ m =>
      rw [List.getD_cons_succ]
      exact List.mem_cons_of_mem _ (ih m (by simpa using h))

/-- Membership in the grid rectangle, unfolded. -/
lemma mem_gridCells (width height : ℕ) (p : ℤ × ℤ) :
    p ∈ gridCells width height ↔
      0 ≤ p.1 ∧ p.1 < (width : ℤ) ∧ 0 ≤ p.2 ∧ p.2 < (height : ℤ) := by
  simp only [gridCells, Finset.mem_product, Finset.mem_Icc]
  omega

/-- What membership of the neighbor list means: the neighbor is in bounds,
unvisited, and it together with its wall cell is the stride-2 step in one
of the four table directions. -/
lemma mem_getUnvisitedNeighbors (width height : ℕ) (x z : ℤ)
    (V : ℤ → ℤ → Bool) (n : MazeNeighbor)
    (hn : n ∈ getUnvisitedNeighbors width height x z V) :
    (0 ≤ n.x ∧ n.x < (width : ℤ) ∧ 0 ≤ n.z ∧ n.z < (height : ℤ)) ∧
      V n.x n.z = false ∧
      ((n.x = x ∧ n.z = z - 2 ∧ n.wallX = x ∧ n.wallZ = z - 1) ∨
        (n.x = x + 2 ∧ n.z = z ∧ n.wallX = x + 1 ∧ n.wallZ = z) ∨
        (n.x = x ∧ n.z = z + 2 ∧ n.wallX = x ∧ n.wallZ = z + 1) ∨
        (n.x = x - 2 ∧ n.z = z ∧ n.wallX = x - 1 ∧ n.wallZ = z)) := by
  rw [getUnvisitedNeighbors, List.mem_filterMap] at hn
  obtain ⟨d, hd, hfd⟩ := hn
  rw [mazeDirections] at hd
  simp only [List.mem_cons, List.not_mem_nil, or_false] at hd
  rcases hd with hd | hd | hd | hd <;>
    · subst hd
      dsimp only at hfd
      split_ifs at hfd with hc
      · obtain rfl := Option.some.inj hfd
        obtain ⟨h1, h2, h3, h4, h5⟩ := hc
        refine ⟨⟨h1, h2, h3, h4⟩, h5, ?_⟩
        dsimp only
        omega

/-- The loop invariant of generateMaze, relating the maze array, the
visited array and the stack: visited cells are exactly the even-coordinate
path cells (the rooms), they are in bounds and reachable from the spawn
cell along carved connections, the stack holds visited cells, every path
cell is a room or a carved wall cell between two visited rooms, and there
is exactly one more visited room than carved connections. -/
structure GenInv (width height : ℕ) (s : GenState) : Prop where
  visited_room : ∀ x z, s.visited x z = true →
    2 ∣ x ∧ 2 ∣ z ∧ 0 ≤ x ∧ x < (width : ℤ) ∧ 0 ≤ z ∧ z < (height : ℤ)
  visited_path : ∀ x z, s.visited x z = true → s.maze x z = 0
  evenPath_visited : ∀ x z, 2 ∣ x → 2 ∣ z → s.maze x z = 0 →
    s.visited x z = true
  spawn_visited : s.visited 0 0 = true
  stack_visited : ∀ c ∈ s.stack, s.visited c.1 c.2 = true
  path_class : ∀ x z, s.maze x z = 0 →
    (2 ∣ x ∧ 2 ∣ z) ∨
      (2 ∣ x ∧ ¬2 ∣ z ∧ s.visited x (z - 1) = true ∧
        s.visited x (z + 1) = true) ∨
      (¬2 ∣ x ∧ 2 ∣ z ∧ s.visited (x - 1) z = true ∧
        s.visited (x + 1) z = true)
  reach : ∀ x z, s.visited x z = true → mazeReach s.maze (x, z)
  conn_count : (connCells s.maze width height).card + 1 =
    (visitedCells s.visited width height).card

/-- Carving only adds path cells, so carved adjacency is monotone. -/
lemma carvedAdj_mono (M M2 : ℤ → ℤ → ℕ)
    (h : ∀ x z, M x z = 0 → M2 x z = 0) (a b : ℤ × ℤ)
    (hab : carvedAdj M a b) : carvedAdj M2 a b := by
  obtain ⟨h1, h2, h3⟩ := hab
  refine ⟨h _ _ h1, h _ _ h2, ?_⟩
  rcases h3 with ⟨e1, e2, e3⟩ | ⟨e1, e2, e3⟩ | ⟨e1, e2, e3⟩ | ⟨e1, e2, e3⟩
  · exact Or.inl ⟨e1, e2, h _ _ e3⟩
  · exact Or.inr (Or.inl ⟨e1, e2, h _ _ e3⟩)
  · exact Or.inr (Or.inr (Or.inl ⟨e1, e2, h _ _ e3⟩))
  · exact Or.inr (Or.inr (Or.inr ⟨e1, e2, h _ _ e3⟩))

/-- Reachability along carved connections is monotone in carving. -/
lemma mazeReach_mono (M M2 : ℤ → ℤ → ℕ)
    (h : ∀ x z, M x z = 0 → M2 x z = 0) (c : ℤ × ℤ)
    (hc : mazeReach M c) : mazeReach M2 c :=
  Relation.ReflTransGen.mono (fun a b hab => carvedAdj_mono M M2 h a b hab) hc

/-- Marking a grid cell visited inserts it into the visited set. -/
lemma visitedCells_insert (V : ℤ → ℤ → Bool) (width height : ℕ) (a b : ℤ)
    (hin : (a, b) ∈ gridCells width height) :
    visitedCells (set2 V a b true) width height =
      insert (a, b) (visitedCells V width height) := by
  ext p
  simp only [visitedCells, Finset.mem_filter, Finset.mem_insert]
  constructor
  · rintro ⟨hp, hv⟩
    rw [set2_true_iff] at hv
    rcases hv with ⟨h1, h2⟩ | hv
    · exact Or.inl (Prod.ext_iff.mpr ⟨h1, h2⟩)
    · exact Or.inr ⟨hp, hv⟩
  · rintro (rfl | ⟨hp, hv⟩)
    · exact ⟨hin, by rw [set2_true_iff]; exact Or.inl ⟨rfl, rfl⟩⟩
    · exact ⟨hp, by rw [set2_true_iff]; exact Or.inr hv⟩

/-- Carving a room cell and its wall cell inserts exactly the wall cell
into the connection set (the room cell has even coordinates). -/
lemma connCells_carve (M : ℤ → ℤ → ℕ) (width height : ℕ) (nx nz wx wz : ℤ)
    (hnx : 2 ∣ nx) (hnz : 2 ∣ nz) (hwodd : ¬(2 ∣ wx ∧ 2 ∣ wz))
    (hwin : (wx, wz) ∈ gridCells width height) :
    connCells (set2 (set2 M wx wz 0) nx nz 0) width height =
      insert (wx, wz) (connCells M width height) := by
  ext p
  simp only [connCells, pathCells, Finset.mem_filter, Finset.mem_insert]
  constructor
  · rintro ⟨⟨hp, hm⟩, hodd⟩
    rw [set2_zero_iff] at hm
    rcases hm with ⟨h1, h2⟩ | hm
    · exact absurd ⟨h1 ▸ hnx, h2 ▸ hnz⟩ hodd
    · rw [set2_zero_iff] at hm
      rcases hm with ⟨h1, h2⟩ | hm
      · exact Or.inl (Prod.ext_iff.mpr ⟨h1, h2⟩)
      · exact Or.inr ⟨⟨hp, hm⟩, hodd⟩
  · rintro (rfl | ⟨⟨hp, hm⟩, hodd⟩)
    · refine ⟨⟨hwin, ?_⟩, hwodd⟩
      rw [set2_zero_iff]
      exact Or.inr (by rw [set2_zero_iff]; exact Or.inl ⟨rfl, rfl⟩)
    · refine ⟨⟨hp, ?_⟩, hodd⟩
      rw [set2_zero_iff]
      exact Or.inr (by rw [set2_zero_iff]; exact Or.inr hm)

/-- Under the invariant, the rooms of the grid are exactly the visited
cells. -/
lemma roomCells_eq_visited (width height : ℕ) (s : GenState)
    (inv : GenInv width height s) :
    roomCells s.maze width height = visitedCells s.visited width height := by
  ext p
  simp only [roomCells, pathCells, visitedCells, Finset.mem_filter]
  constructor
  · rintro ⟨⟨hp, hm⟩, he1, he2⟩
    exact ⟨hp, inv.evenPath_visited _ _ he1 he2 hm⟩
  · rintro ⟨hp, hv⟩
    obtain ⟨d1, d2, -⟩ := inv.visited_room _ _ hv
    exact ⟨⟨hp, inv.visited_path _ _ hv⟩, d1, d2⟩

/-- The invariant holds just before the loop. -/
lemma genInv_init (width height : ℕ) (hW : 1 ≤ width) (hH : 1 ≤ height)
    (ridx : ℕ) : GenInv width height (genInit ridx) := by
  have hM : ∀ x z : ℤ, (genInit ridx).maze x z = 0 ↔ (x = 0 ∧ z = 0) := by
    intro x z
    simp only [genInit, set2]
    split_ifs with h
    · simp [h]
    · simp [h]
  have hV : ∀ x z : ℤ, (genInit ridx).visited x z = true ↔ (x = 0 ∧ z = 0) := by
    intro x z
    simp only [genInit, set2]
    split_ifs with h
    · simp [h]
    · simp [h]
  refine ⟨?_, ?_, ?_, ?_, ?_, ?_, ?_, ?_⟩
  · intro x z hv
    obtain ⟨rfl, rfl⟩ := (hV x z).mp hv
    refine ⟨by omega, by omega, by omega, by omega, by omega, by omega⟩
  · intro x z hv
    obtain ⟨rfl, rfl⟩ := (hV x z).mp hv
    exact (hM 0 0).mpr ⟨rfl, rfl⟩
  · intro x z _ _ hm
    obtain ⟨rfl, rfl⟩ := (hM x z).mp hm
    exact (hV 0 0).mpr ⟨rfl, rfl⟩
  · exact (hV 0 0).mpr ⟨rfl, rfl⟩
  · intro c hc
    have hc1 : c = ((0 : ℤ), (0 : ℤ)) := List.mem_singleton.mp hc
    subst hc1
    exact (hV 0 0).mpr ⟨rfl, rfl⟩
  · intro x z hm
    obtain ⟨rfl, rfl⟩ := (hM x z).mp hm
    exact Or.inl ⟨by omega, by omega⟩
  · intro x z hv
    obtain ⟨rfl, rfl⟩ := (hV x z).mp hv
    exact Relation.ReflTransGen.refl
  · have h1 : connCells (genInit ridx).maze width height = ∅ := by
      rw [Finset.eq_empty_iff_forall_not_mem]
      intro p hp
      simp only [connCells, pathCells, Finset.mem_filter] at hp
      obtain ⟨⟨-, hm⟩, hodd⟩ := hp
      obtain ⟨e1, e2⟩ := (hM p.1 p.2).mp hm
      exact hodd ⟨by omega, by omega⟩
    have h2 : visitedCells (genInit ridx).visited width height = {(0, 0)} := by
      ext p
      simp only [visitedCells, Finset.mem_filter, Finset.mem_singleton]
      constructor
      · rintro ⟨-, hv⟩
        obtain ⟨e1, e2⟩ := (hV p.1 p.2).mp hv
        exact Prod.ext_iff.mpr ⟨e1, e2⟩
      · rintro rfl
        exact ⟨(mem_gridCells width height (0, 0)).mpr
          ⟨by omega, by omega, by omega, by omega⟩, (hV 0 0).mpr ⟨rfl, rfl⟩⟩
    rw [h1, h2]
    simp

/-- Preservation of the invariant by one carving step: the current cell
(cx, cz) is visited, n is one of its unvisited in-bounds stride-2 neighbors,
and the step clears n's wall cell and room cell, marks n visited and pushes
it. -/
lemma genInv_carve (width height : ℕ) (s : GenState)
    (inv : GenInv width height s) (cx cz : ℤ)
    (hcvis : s.visited cx cz = true) (n : MazeNeighbor)
    (hnmem : n ∈ getUnvisitedNeighbors width height cx cz s.visited) (r : ℕ) :
    GenInv width height
      { maze := set2 (set2 s.maze n.wallX n.wallZ 0) n.x n.z 0,
        visited := set2 s.visited n.x n.z true,
        stack := (n.x, n.z) :: s.stack,
        ridx := r } := by
  obtain ⟨ecx, ecz, hcx0, hcxW, hcz0, hczH⟩ := inv.visited_room cx cz hcvis
  obtain ⟨⟨hnx0, hnxW, hnz0, hnzH⟩, hunvis, hgeom⟩ :=
    mem_getUnvisitedNeighbors width height cx cz s.visited n hnmem
  have hnex : 2 ∣ n.x := by omega
  have hnez : 2 ∣ n.z := by omega
  have hwodd : ¬(2 ∣ n.wallX ∧ 2 ∣ n.wallZ) := by omega
  have hwb : 0 ≤ n.wallX ∧ n.wallX < (width : ℤ) ∧ 0 ≤ n.wallZ ∧
      n.wallZ < (height : ℤ) := by omega
  have hwall_ne : s.maze n.wallX n.wallZ ≠ 0 := by
    intro h0
    rcases inv.path_class _ _ h0 with ⟨d1, d2⟩ | ⟨d1, d2, hv1, hv2⟩ | ⟨d1, d2, hv1, hv2⟩
    · exact hwodd ⟨d1, d2⟩
    · rcases hgeom with ⟨e1, e2, e3, e4⟩ | ⟨e1, e2, e3, e4⟩ |
        ⟨e1, e2, e3, e4⟩ | ⟨e1, e2, e3, e4⟩
      · have hvn : s.visited n.x n.z = true := by
          rw [show n.x = n.wallX by omega, show n.z = n.wallZ - 1 by omega]
          exact hv1
        rw [hunvis] at hvn
        exact Bool.noConfusion hvn
      · exact absurd d1 (by omega)
      · have hvn : s.visited n.x n.z = true := by
          rw [show n.x = n.wallX by omega, show n.z = n.wallZ + 1 by omega]
          exact hv2
        rw [hunvis] at hvn
        exact Bool.noConfusion hvn
      · exact absurd d1 (by omega)
    · rcases hgeom with ⟨e1, e2, e3, e4⟩ | ⟨e1, e2, e3, e4⟩ |
        ⟨e1, e2, e3, e4⟩ | ⟨e1, e2, e3, e4⟩
      · exact absurd d2 (by omega)
      · have hvn : s.visited n.x n.z = true := by
          rw [show n.x = n.wallX + 1 by omega, show n.z = n.wallZ by omega]
          exact hv2
        rw [hunvis] at hvn
        exact Bool.noConfusion hvn
      · exact absurd d2 (by omega)
      · have hvn : s.visited n.x n.z = true := by
          rw [show n.x = n.wallX - 1 by omega, show n.z = n.wallZ by omega]
          exact hv1
        rw [hunvis] at hvn
        exact Bool.noConfusion hvn
  have hmono : ∀ x z, s.maze x z = 0 →
      set2 (set2 s.maze n.wallX n.wallZ 0) n.x n.z 0 x z = 0 := by
    intro x z h
    rw [set2_zero_iff]
    exact Or.inr (by rw [set2_zero_iff]; exact Or.inr h)
  refine ⟨?_, ?_, ?_, ?_, ?_, ?_, ?_, ?_⟩ <;> dsimp only
  · intro x z hv
    rw [set2_true_iff] at hv
    rcases hv with ⟨rfl, rfl⟩ | hv
    · exact ⟨hnex, hnez, hnx0, hnxW, hnz0, hnzH⟩
    · exact inv.visited_room _ _ hv
  · intro x z hv
    rw [set2_true_iff] at hv
    rw [set2_zero_iff]
    rcases hv with ⟨e1, e2⟩ | hv
    · exact Or.inl ⟨e1, e2⟩
    · exact Or.inr (by rw [set2_zero_iff]; exact Or.inr (inv.visited_path _ _ hv))
  · intro x z hex hez hm
    rw [set2_zero_iff] at hm
    rw [set2_true_iff]
    rcases hm with ⟨e1, e2⟩ | hm
    · exact Or.inl ⟨e1, e2⟩
    · rw [set2_zero_iff] at hm
      rcases hm with ⟨e1, e2⟩ | hm
      · exact absurd ⟨e1 ▸ hex, e2 ▸ hez⟩ hwodd
      · exact Or.inr (inv.evenPath_visited _ _ hex hez hm)
  · rw [set2_true_iff]
    exact Or.inr inv.spawn_visited
  · intro c hc
    rcases List.mem_cons.mp hc with rfl | hc
    · rw [set2_true_iff]
      exact Or.inl ⟨rfl, rfl⟩
    · rw [set2_true_iff]
      exact Or.inr (inv.stack_visited c hc)
  · intro x z hm
    rw [set2_zero_iff] at hm
    rcases hm with ⟨rfl, rfl⟩ | hm
    · exact Or.inl ⟨hnex, hnez⟩
    · rw [set2_zero_iff] at hm
      rcases hm with ⟨rfl, rfl⟩ | hm
      · rcases hgeom with ⟨g1, g2, g3, g4⟩ | ⟨g1, g2, g3, g4⟩ |
          ⟨g1, g2, g3, g4⟩ | ⟨g1, g2, g3, g4⟩
        · refine Or.inr (Or.inl ⟨by omega, by omega, ?_, ?_⟩)
          · rw [set2_true_iff]
            exact Or.inl ⟨by omega, by omega⟩
          · rw [set2_true_iff]
            refine Or.inr ?_
            rw [show n.wallX = cx by omega, show n.wallZ + 1 = cz by omega]
            exact hcvis
        · refine Or.inr (Or.inr ⟨by omega, by omega, ?_, ?_⟩)
          · rw [set2_true_iff]
            refine Or.inr ?_
            rw [show n.wallX - 1 = cx by omega, show n.wallZ = cz by omega]
            exact hcvis
          · rw [set2_true_iff]
            exact Or.inl ⟨by omega, by omega⟩
        · refine Or.inr (Or.inl ⟨by omega, by omega, ?_, ?_⟩)
          · rw [set2_true_iff]
            refine Or.inr ?_
            rw [show n.wallX = cx by omega, show n.wallZ - 1 = cz by omega]
            exact hcvis
          · rw [set2_true_iff]
            exact Or.inl ⟨by omega, by omega⟩
        · refine Or.inr (Or.inr ⟨by omega, by omega, ?_, ?_⟩)
          · rw [set2_true_iff]
            exact Or.inl ⟨by omega, by omega⟩
          · rw [set2_true_iff]
            refine Or.inr ?_
            rw [show n.wallX + 1 = cx by omega, show n.wallZ = cz by omega]
            exact hcvis
      · rcases inv.path_class _ _ hm with h | ⟨d1, d2, hv1, hv2⟩ | ⟨d1, d2, hv1, hv2⟩
        · exact Or.inl h
        · refine Or.inr (Or.inl ⟨d1, d2, ?_, ?_⟩)
          · rw [set2_true_iff]
            exact Or.inr hv1
          · rw [set2_true_iff]
            exact Or.inr hv2
        · refine Or.inr (Or.inr ⟨d1, d2, ?_, ?_⟩)
          · rw [set2_true_iff]
            exact Or.inr hv1
          · rw [set2_true_iff]
            exact Or.inr hv2
  · intro x z hv
    rw [set2_true_iff] at hv
    rcases hv with ⟨rfl, rfl⟩ | hv
    · have hreachc : mazeReach (set2 (set2 s.maze n.wallX n.wallZ 0) n.x n.z 0)
          (cx, cz) :=
        mazeReach_mono _ _ hmono _ (inv.reach cx cz hcvis)
      have hMc : set2 (set2 s.maze n.wallX n.wallZ 0) n.x n.z 0 cx cz = 0 :=
        hmono _ _ (inv.visited_path _ _ hcvis)
      have hMn : set2 (set2 s.maze n.wallX n.wallZ 0) n.x n.z 0 n.x n.z = 0 := by
        rw [set2_zero_iff]
        exact Or.inl ⟨rfl, rfl⟩
      have hMw : set2 (set2 s.maze n.wallX n.wallZ 0) n.x n.z 0
          n.wallX n.wallZ = 0 := by
        rw [set2_zero_iff]
        exact Or.inr (by rw [set2_zero_iff]; exact Or.inl ⟨rfl, rfl⟩)
      refine Relation.ReflTransGen.tail hreachc ⟨hMc, hMn, ?_⟩
      dsimp only
      rcases hgeom with ⟨g1, g2, g3, g4⟩ | ⟨g1, g2, g3, g4⟩ |
          ⟨g1, g2, g3, g4⟩ | ⟨g1, g2, g3, g4⟩
      · refine Or.inr (Or.inl ⟨g1, by omega, ?_⟩)
        rw [show cx = n.wallX by omega, show cz - 1 = n.wallZ by omega]
        exact hMw
      · refine Or.inr (Or.inr (Or.inl ⟨g2, by omega, ?_⟩))
        rw [show cx + 1 = n.wallX by omega, show cz = n.wallZ by omega]
        exact hMw
      · refine Or.inl ⟨g1, by omega, ?_⟩
        rw [show cx = n.wallX by omega, show cz + 1 = n.wallZ by omega]
        exact hMw
      · refine Or.inr (Or.inr (Or.inr ⟨g2, by omega, ?_⟩))
        rw [show cx - 1 = n.wallX by omega, show cz = n.wallZ by omega]
        exact hMw
    · exact mazeReach_mono _ _ hmono _ (inv.reach _ _ hv)
  · have hconn2 := connCells_carve s.maze width height n.x n.z n.wallX n.wallZ
      hnex hnez hwodd ((mem_gridCells _ _ _).mpr
        ⟨hwb.1, hwb.2.1, hwb.2.2.1, hwb.2.2.2⟩)
    have hvis2 := visitedCells_insert s.visited width height n.x n.z
      ((mem_gridCells _ _ _).mpr ⟨hnx0, hnxW, hnz0, hnzH⟩)
    have hwnot : (n.wallX, n.wallZ) ∉ connCells s.maze width height := by
      simp only [connCells, pathCells, Finset.mem_filter]
      rintro ⟨⟨-, hm⟩, -⟩
      exact hwall_ne hm
    have hnnot : (n.x, n.z) ∉ visitedCells s.visited width height := by
      simp only [visitedCells, Finset.mem_filter]
      rintro ⟨-, hv⟩
      rw [hunvis] at hv
      exact Bool.noConfusion hv
    rw [hconn2, hvis2, Finset.card_insert_of_not_mem hwnot,
      Finset.card_insert_of_not_mem hnnot]
    have hcount := inv.conn_count
    omega

/-- Preservation of the invariant by one loop iteration. -/
lemma genInv_step (width height : ℕ) (pick : ℕ → ℕ → ℕ)
    (hpick : ∀ i m, m ≠ 0 → pick i m < m) (s : GenState)
    (inv : GenInv width height s) :
    GenInv width height (genStep width height pick s) := by
  rcases hstack : s.stack with - | ⟨c, rest⟩
  · unfold genStep
    rw [hstack]
    exact inv
  · unfold genStep
    rw [hstack]
    dsimp only
    by_cases hlen :
      0 < (getUnvisitedNeighbors width height c.1 c.2 s.visited).length
    · rw [if_pos hlen]
      have hcvis : s.visited c.1 c.2 = true :=
        inv.stack_visited c (by rw [hstack]; exact List.mem_cons_self _ _)
      have hres := genInv_carve width height s inv c.1 c.2 hcvis
        ((getUnvisitedNeighbors width height c.1 c.2 s.visited).getD
          (pick s.ridx
            (getUnvisitedNeighbors width height c.1 c.2 s.visited).length)
          ⟨0, 0, 0, 0⟩)
        (getD_mem_of_lt _ _ _ (hpick _ _ (by omega))) (s.ridx + 1)
      rw [hstack] at hres
      exact hres
    · rw [if_neg hlen]
      exact { visited_room := inv.visited_room,
              visited_path := inv.visited_path,
              evenPath_visited := inv.evenPath_visited,
              spawn_visited := inv.spawn_visited,
              stack_visited := fun c2 hc2 => inv.stack_visited c2
                (by rw [hstack]; exact List.mem_cons_of_mem _ hc2),
              path_class := inv.path_class,
              reach := inv.reach,
              conn_count := inv.conn_count }

/-- Preservation of the invariant by the whole loop. -/
lemma genInv_loop (width height : ℕ) (pick : ℕ → ℕ → ℕ)
    (hpick : ∀ i m, m ≠ 0 → pick i m < m) (fuel : ℕ) :
    ∀ s, GenInv width height s →
      GenInv width height (genLoop width height pick fuel s) := by
  induction fuel with
  | zero => exact fun s inv => inv
  | succ fuel ih =>
    intro s inv
    rw [genLoop]
    rcases hstack : s.stack with - | ⟨c, rest⟩
    · exact inv
    · exact ih _ (genInv_step width height pick hpick s inv)

/-- The invariant holds for the final state of a generation. -/
lemma genInv_final (width height : ℕ) (hW : 1 ≤ width) (hH : 1 ≤ height)
    (pick : ℕ → ℕ → ℕ) (hpick : ∀ i m, m ≠ 0 → pick i m < m) (ridx : ℕ) :
    GenInv width height (generateMazeP width height pick ridx) :=
  genInv_loop width height pick hpick _ _ (genInv_init width height hW hH ridx)

/-- Claim C1, amended: for W, H at least 2 and Math.random draws in [0,1),
the generated grid restricted to cells with both coordinates even (the
rooms of the stride-2 carving lattice) is a spanning tree under carved
connections: the spawn cell is an open room, every room that is Path is
reachable from the spawn cell through carved wall cells, and the number of
carved connections (the Path cells with an odd coordinate) is exactly the
number of Path rooms minus one — connectedness with that count is
acyclicity.  This is the claim's property with "Path cells" read as the
even-coordinate Path cells, as the counterexample forces. -/
theorem generateMaze_spanning_tree (width height : ℕ) (rand : ℕ → ℚ)
    (hW : 2 ≤ width) (hH : 2 ≤ height)
    (hr : ∀ n, 0 ≤ rand n ∧ rand n < 1) :
    generateMaze width height rand 0 0 = 0 ∧
      (0, 0) ∈ roomCells (generateMaze width height rand) width height ∧
      (∀ p ∈ roomCells (generateMaze width height rand) width height,
        mazeReach (generateMaze width height rand) p) ∧
      (connCells (generateMaze width height rand) width height).card + 1 =
        (roomCells (generateMaze width height rand) width height).card := by
  have hpick : ∀ i m, m ≠ 0 → jsPick rand i m < m :=
    fun i m hm => jsPick_lt rand hr i m hm
  have inv := genInv_final width height (by omega) (by omega)
    (jsPick rand) hpick 0
  have hspawn : generateMaze width height rand 0 0 = 0 :=
    inv.visited_path 0 0 inv.spawn_visited
  refine ⟨hspawn, ?_, ?_, ?_⟩
  · simp only [roomCells, pathCells, Finset.mem_filter]
    exact ⟨⟨(mem_gridCells width height (0, 0)).mpr
      ⟨by omega, by omega, by omega, by omega⟩, hspawn⟩, by omega, by omega⟩
  · intro p hp
    have hv : (generateMazeP width height (jsPick rand) 0).visited p.1 p.2 = true := by
      have he := roomCells_eq_visited width height _ inv
      rw [show roomCells (generateMaze width height rand) width height =
          roomCells (generateMazeP width height (jsPick rand) 0).maze width height
          from rfl, he] at hp
      exact (Finset.mem_filter.mp hp).2
    exact inv.reach p.1 p.2 hv
  · rw [show roomCells (generateMaze width height rand) width height =
        roomCells (generateMazeP width height (jsPick rand) 0).maze width height
        from rfl, roomCells_eq_visited width height _ inv]
    exact inv.conn_count

/-- Witness for the amended claim C1: the 2 by 2 instance on the all-zero
stream (a single room, no connections). -/
theorem generateMaze_spanning_tree_witness :
    generateMaze 2 2 czeroRand 0 0 = 0 ∧
      (0, 0) ∈ roomCells (generateMaze 2 2 czeroRand) 2 2 ∧
      (∀ p ∈ roomCells (generateMaze 2 2 czeroRand) 2 2,
        mazeReach (generateMaze 2 2 czeroRand) p) ∧
      (connCells (generateMaze 2 2 czeroRand) 2 2).card + 1 =
        (roomCells (generateMaze 2 2 czeroRand) 2 2).card :=
  generateMaze_spanning_tree 2 2 czeroRand (by omega) (by omega)
    (fun n => by norm_num [czeroRand])

/-- Claim C6: for all width, height at least 1 and draws in [0,1), the
spawn cell (0,0) of the generated grid is Path; and the 1 by 1 generation
is the single open spawn cell with nothing else carved. -/
theorem generateMaze_spawn_path (width height : ℕ) (rand : ℕ → ℚ)
    (hW : 1 ≤ width) (hH : 1 ≤ height)
    (hr : ∀ n, 0 ≤ rand n ∧ rand n < 1) :
    generateMaze width height rand 0 0 = 0 ∧
      pathCells (generateMaze 1 1 rand) 1 1 = {(0, 0)} := by
  constructor
  · have hpick : ∀ i m, m ≠ 0 → jsPick rand i m < m :=
      fun i m hm => jsPick_lt rand hr i m hm
    have inv := genInv_final width height hW hH (jsPick rand) hpick 0
    exact inv.visited_path 0 0 inv.spawn_visited
  · have h11 : generateMaze 1 1 rand = (genInit 0).maze := rfl
    rw [h11]
    decide

/-- Witness for claim C6: the 3 by 2 instance on the all-zero stream. -/
theorem generateMaze_spawn_path_witness :
    generateMaze 3 2 czeroRand 0 0 = 0 ∧
      pathCells (generateMaze 1 1 czeroRand) 1 1 = {(0, 0)} :=
  generateMaze_spawn_path 3 2 czeroRand (by omega) (by omega)
    (fun n => by norm_num [czeroRand])
